import Mathlib

/-!
Shallow embedding of the `dd::Fraction<T>` class of `Fraction.hpp`.

The machine integer type `T` is modelled by `Int`: the design leaves
overflow entirely to the caller, and the claims under study are about the
exact integer semantics of the operations.  C++ `%` and `/` on signed
integers truncate toward zero, so they are modelled by `Int.tmod` and
`Int.tdiv`.  The mutating operators (`+=` …) rewrite the two member
variables and then call `reduction()`; they are modelled as functions from
the old state (and the argument) to the new state.  The binary operators
copy the left operand and apply the mutating form to the copy, so they are
the same functions.
-/

namespace dd

/-- The state of a `Fraction<T>` object: the member variables `m_num` and
`m_den` of `Fraction.hpp`. -/
structure Fraction where
  num : Int
  den : Int
deriving DecidableEq

/-- Fuel-indexed model of the loop in `Fraction::PGCD`:
`T r = a%b; while(r) { a=b; b=r; r=a%b; } return b;`.
Each call evaluates one `%`.  `none` models running out of fuel or hitting
the undefined `%` by a zero divisor; the theorems below show that with fuel
`b.natAbs` neither happens on the arguments `reduction()` passes. -/
def PGCDloop : Nat → Int → Int → Option Int
  | 0, _, _ => none
  | fuel + 1, a, b =>
    if b = 0 then none
    else if a.tmod b = 0 then some b
    else PGCDloop fuel b (a.tmod b)

/-- The value returned by `Fraction::PGCD(a, b)`.  Fuel `b.natAbs` is enough
for every call the class makes (second argument positive, proved below);
the default `0` is never reached from those calls. -/
def PGCD (a b : Int) : Int := (PGCDloop b.natAbs a b).getD 0

/-- The common tail of `Fraction::reduction()` once the denominator's sign
has been moved to the numerator: `div` is `PGCD(num, den)` when the
numerator is non-negative and `PGCD(-1*num, den)` otherwise, and both
members are divided by it (C++ `/`, i.e. `Int.tdiv`). -/
def reduceCore (n d : Int) : Fraction :=
  ⟨n.tdiv (if 0 ≤ n then PGCD n d else PGCD (-1 * n) d),
   d.tdiv (if 0 ≤ n then PGCD n d else PGCD (-1 * n) d)⟩

/-- Model of `Fraction::reduction()`: a zero denominator is left untouched; a
negative denominator has its sign moved onto the numerator (both members
multiplied by `-1`); then numerator and denominator are divided by the
`PGCD` of the absolute numerator and the (now positive) denominator. -/
def reduction (f : Fraction) : Fraction :=
  if f.den = 0 then f
  else if f.den < 0 then reduceCore (f.num * -1) (f.den * -1)
  else reduceCore f.num f.den

/-- The two-argument constructor `Fraction(T num, T den)`: if `den > 0` the
members are taken as given, otherwise the denominator is negated and the
numerator multiplied by `-1` (note that this branch also runs when
`den == 0`); then `reduction()` runs. -/
def ofNumDen (num den : Int) : Fraction :=
  reduction (if 0 < den then ⟨num, den⟩ else ⟨num * -1, -den⟩)

/-- The one-argument constructor `Fraction(T num = 0)`: denominator `1`, no
reduction. -/
def ofNum (num : Int) : Fraction := ⟨num, 1⟩

/-- Member function `Fraction::isFinite()`. -/
def Fraction.isFinite (f : Fraction) : Bool := f.den ≠ 0

/-- Member function `Fraction::isInf()`. -/
def Fraction.isInf (f : Fraction) : Bool := f.den = 0 ∧ f.num ≠ 0

/-- Member function `Fraction::isNan()`. -/
def Fraction.isNan (f : Fraction) : Bool := f.den = 0 ∧ f.num = 0

/-- Model of `Fraction::operator+=`: cross-multiplied sum, then `reduction()`. -/
def addAssign (f g : Fraction) : Fraction :=
  reduction ⟨f.num * g.den + g.num * f.den, f.den * g.den⟩

/-- Model of `Fraction::operator-=`: cross-multiplied difference, then `reduction()`. -/
def subAssign (f g : Fraction) : Fraction :=
  reduction ⟨f.num * g.den - g.num * f.den, f.den * g.den⟩

/-- Model of `Fraction::operator*=`: componentwise product, then `reduction()`. -/
def mulAssign (f g : Fraction) : Fraction :=
  reduction ⟨f.num * g.num, f.den * g.den⟩

/-- Model of `Fraction::operator/=`: multiply by the reciprocal, then `reduction()`. -/
def divAssign (f g : Fraction) : Fraction :=
  reduction ⟨f.num * g.den, f.den * g.num⟩

/-- Binary `operator+`: copy the left operand and apply `+=`. -/
def add (f1 f2 : Fraction) : Fraction := addAssign f1 f2

/-- Binary `operator-`: copy the left operand and apply `-=`. -/
def sub (f1 f2 : Fraction) : Fraction := subAssign f1 f2

/-- Binary `operator*`: copy the left operand and apply `*=`. -/
def mul (f1 f2 : Fraction) : Fraction := mulAssign f1 f2

/-- Binary `operator/`: copy the left operand and apply `/=`. -/
def div (f1 f2 : Fraction) : Fraction := divAssign f1 f2

/-- Comparison `operator==`: structural equality of the two member pairs. -/
def feq (f1 f2 : Fraction) : Bool := f1.num == f2.num && f1.den == f2.den

/-- Comparison `operator>`: the cross-multiplication test `f1.num * f2.den > f2.num * f1.den`. -/
def fgt (f1 f2 : Fraction) : Bool := decide (f1.num * f2.den > f2.num * f1.den)

/-- Comparison `operator!=`, defined as the negation of `operator==`. -/
def fne (f1 f2 : Fraction) : Bool := !(feq f1 f2)

/-- Comparison `operator>=`, defined as `!(f2 > f1)`. -/
def fge (f1 f2 : Fraction) : Bool := !(fgt f2 f1)

/-- Comparison `operator<`, defined as `f2 > f1`. -/
def flt (f1 f2 : Fraction) : Bool := fgt f2 f1

/-- Comparison `operator<=`, defined as `!(f1 > f2)`. -/
def fle (f1 f2 : Fraction) : Bool := !(fgt f1 f2)

/-- Output `operator<<`: the canonical text form `"NaN"`, `"Inf"` or `"num/den"`. -/
def toText (f : Fraction) : String :=
  if f.isNan then "NaN"
  else if f.isInf then "Inf"
  else toString f.num ++ "/" ++ toString f.den

/-- The canonical-form invariant of the specification: the denominator is
non-negative, and a positive denominator is coprime with the numerator,
zero being represented only by the pair `(0, 1)`. -/
def canonicalForm (f : Fraction) : Prop :=
  0 ≤ f.den ∧ (0 < f.den → Int.gcd f.num f.den = 1 ∧ (f.num = 0 → f.den = 1))

instance (f : Fraction) : Decidable (canonicalForm f) :=
  decidable_of_iff
    (0 ≤ f.den ∧ (0 < f.den → Int.gcd f.num f.den = 1 ∧ (f.num = 0 → f.den = 1)))
    Iff.rfl

/-- Euclidean step of `Int.gcd` on the argument shapes the class uses. -/
lemma gcd_step {a b : Int} (ha : 0 ≤ a) (hb : 0 < b) :
    Int.gcd b (a % b) = Int.gcd a b := by
  lift a to ℕ using ha with m
  lift b to ℕ using le_of_lt hb with n
  rw [← Int.natCast_mod, Int.gcd_natCast_natCast, Int.gcd_natCast_natCast,
    Nat.gcd_comm n (m % n), ← Nat.gcd_rec, Nat.gcd_comm]

/-- With fuel `b.natAbs`, the loop of `Fraction::PGCD` terminates on the
arguments the class passes (first non-negative, second positive) and
returns the mathematical gcd. -/
lemma PGCDloop_eq_gcd :
    ∀ (fuel : Nat) (a b : Int), 0 ≤ a → 0 < b → b.natAbs ≤ fuel →
      PGCDloop fuel a b = some (Int.gcd a b : Int) := by
  intro fuel
  induction fuel with
  | zero =>
    intro a b _ hb hfuel
    exact absurd hfuel (by omega)
  | succ k ih =>
    intro a b ha hb hfuel
    have hbne : b ≠ 0 := ne_of_gt hb
    have htmod : a.tmod b = a % b := Int.tmod_eq_emod ha (le_of_lt hb)
    rw [PGCDloop, if_neg hbne, htmod]
    by_cases hr : a % b = 0
    · rw [if_pos hr, Int.gcd_eq_right (Int.dvd_of_emod_eq_zero hr),
        Int.natAbs_of_nonneg (le_of_lt hb)]
    · rw [if_neg hr]
      have h2 : 0 < a % b := lt_of_le_of_ne (Int.emod_nonneg a hbne) (Ne.symm hr)
      have h3 : (a % b).natAbs ≤ k := by
        have := Int.emod_lt_of_pos a hb
        omega
      rw [ih b (a % b) (le_of_lt hb) h2 h3, gcd_step ha hb]

/-- Function `Fraction::PGCD` computes the mathematical gcd on the arguments the
class passes to it. -/
lemma PGCD_eq_gcd {a b : Int} (ha : 0 ≤ a) (hb : 0 < b) :
    PGCD a b = (Int.gcd a b : Int) := by
  rw [PGCD, PGCDloop_eq_gcd b.natAbs a b ha hb (le_refl _)]
  rfl

/-- The `div` chosen inside `reduceCore` is the gcd of the pair, for a
positive denominator. -/
lemma reduceCore_div_eq_gcd (n d : Int) (hd : 0 < d) :
    (if 0 ≤ n then PGCD n d else PGCD (-1 * n) d) = (Int.gcd n d : Int) := by
  by_cases hn : 0 ≤ n
  · rw [if_pos hn, PGCD_eq_gcd hn hd]
  · rw [if_neg hn]
    have hn' : 0 ≤ -1 * n := by omega
    rw [PGCD_eq_gcd hn' hd, neg_one_mul, Int.neg_gcd]

/-- Dividing a pair with positive denominator by its gcd yields a positive
denominator, a coprime pair, the same rational value (stated by cross
multiplication), and represents zero only as `(0, 1)`. -/
lemma reduceCore_spec (n d : Int) (hd : 0 < d) :
    0 < (reduceCore n d).den ∧
    Int.gcd (reduceCore n d).num (reduceCore n d).den = 1 ∧
    (reduceCore n d).num * d = n * (reduceCore n d).den ∧
    ((reduceCore n d).num = 0 → (reduceCore n d).den = 1) := by
  have hdne : d ≠ 0 := ne_of_gt hd
  set G : ℕ := Int.gcd n d with hGdef
  have hGpos : 0 < G := Int.gcd_pos_of_ne_zero_right n hdne
  have hGne : ((G : ℕ) : Int) ≠ 0 := by exact_mod_cast Nat.pos_iff_ne_zero.mp hGpos
  obtain ⟨a, ha⟩ : ((G : ℕ) : Int) ∣ n := by rw [hGdef]; exact Int.gcd_dvd_left
  obtain ⟨b, hb⟩ : ((G : ℕ) : Int) ∣ d := by rw [hGdef]; exact Int.gcd_dvd_right
  have hcore : reduceCore n d = ⟨a, b⟩ := by
    rw [reduceCore, reduceCore_div_eq_gcd n d hd, ← hGdef]
    rw [ha, hb, Int.mul_tdiv_cancel_left a hGne, Int.mul_tdiv_cancel_left b hGne]
  have hbpos : 0 < b := by
    rcases lt_trichotomy b 0 with h | h | h
    · have : ((G : ℕ) : Int) * b < 0 :=
        mul_neg_of_pos_of_neg (by exact_mod_cast hGpos) h
      omega
    · rw [h, mul_zero] at hb
      omega
    · exact h
  have hab : Int.gcd a b = 1 := by
    have h1 : G = G * Int.gcd a b := by
      conv_lhs => rw [hGdef]
      rw [ha, hb, Int.gcd_mul_left, Int.natAbs_ofNat]
    exact (Nat.eq_of_mul_eq_mul_left hGpos (by rw [mul_one]; exact h1.symm))
  rw [hcore]
  refine ⟨hbpos, hab, ?_, ?_⟩
  · show a * d = n * b
    rw [ha, hb]
    ring
  · intro h0
    show b = 1
    have h0' : a = 0 := h0
    rw [h0'] at hab
    have hnb : b.natAbs = 1 := by
      have := Int.gcd_zero_left b
      omega
    omega

/-- A zero denominator is left untouched by `reduction()`. -/
lemma reduction_den_zero {f : Fraction} (h : f.den = 0) : reduction f = f := by
  rw [reduction, if_pos h]

/-- On a non-zero denominator, `reduction()` returns a positive
denominator, a coprime pair of the same rational value, and represents
zero only as `(0, 1)`. -/
lemma reduction_spec (f : Fraction) (hden : f.den ≠ 0) :
    0 < (reduction f).den ∧
    Int.gcd (reduction f).num (reduction f).den = 1 ∧
    (reduction f).num * f.den = f.num * (reduction f).den ∧
    ((reduction f).num = 0 → (reduction f).den = 1) := by
  by_cases hneg : f.den < 0
  · have hred : reduction f = reduceCore (f.num * -1) (f.den * -1) := by
      rw [reduction, if_neg hden, if_pos hneg]
    obtain ⟨h1, h2, h3, h4⟩ := reduceCore_spec (f.num * -1) (f.den * -1) (by omega)
    rw [← hred] at h1 h2 h3 h4
    refine ⟨h1, h2, ?_, h4⟩
    nlinarith [h3]
  · have hpos : 0 < f.den := by omega
    have hred : reduction f = reduceCore f.num f.den := by
      rw [reduction, if_neg hden, if_neg hneg]
    obtain ⟨h1, h2, h3, h4⟩ := reduceCore_spec f.num f.den hpos
    rw [← hred] at h1 h2 h3 h4
    exact ⟨h1, h2, h3, h4⟩

/-- The output of `reduction()` always satisfies the canonical-form
invariant. -/
lemma reduction_canonical (f : Fraction) : canonicalForm (reduction f) := by
  by_cases h : f.den = 0
  · rw [reduction_den_zero h]
    exact ⟨le_of_eq h.symm, fun hpos => absurd h (by omega)⟩
  · obtain ⟨h1, h2, _, h4⟩ := reduction_spec f h
    exact ⟨le_of_lt h1, fun _ => ⟨h2, h4⟩⟩

/-- A reduced pair with positive denominator is the unique representative
of its rational value: equal cross products force equal pairs. -/
lemma canonical_inj {n1 d1 n2 d2 : Int} (hd1 : 0 < d1) (hd2 : 0 < d2)
    (hg1 : Int.gcd n1 d1 = 1) (hg2 : Int.gcd n2 d2 = 1)
    (h : n1 * d2 = n2 * d1) : n1 = n2 ∧ d1 = d2 := by
  have hco1 : IsCoprime d1 n1 := (Int.gcd_eq_one_iff_coprime.mp hg1).symm
  have hco2 : IsCoprime d2 n2 := (Int.gcd_eq_one_iff_coprime.mp hg2).symm
  have hdvd1 : d1 ∣ d2 := by
    refine hco1.dvd_of_dvd_mul_left ⟨n2, ?_⟩
    rw [h]
    ring
  have hdvd2 : d2 ∣ d1 := by
    refine hco2.dvd_of_dvd_mul_left ⟨n1, ?_⟩
    rw [← h]
    ring
  have hd : d1 = d2 := Int.dvd_antisymm (le_of_lt hd1) (le_of_lt hd2) hdvd1 hdvd2
  refine ⟨?_, hd⟩
  rw [hd] at h
  exact mul_right_cancel₀ (ne_of_gt hd2) h

/-- On a positive denominator, `reduction()` skips the sign fix. -/
lemma reduction_of_pos {f : Fraction} (h : 0 < f.den) :
    reduction f = reduceCore f.num f.den := by
  rw [reduction, if_neg (by omega), if_neg (by omega)]

/-- C1: every Fraction produced by a public operation — either constructor,
or any of `+`, `-`, `*`, `/` in binary or self-mutating form applied to
canonical operands — satisfies the canonical-form invariants: `den ≥ 0`;
for `den > 0` a coprime pair with zero represented only as `(0, 1)`; and a
zero denominator (non-finite value) left unreduced by `reduction()`. -/
theorem C1_public_ops_canonical (n d : Int) (f g : Fraction)
    (_hf : canonicalForm f) (_hg : canonicalForm g) :
    canonicalForm (ofNumDen n d) ∧ canonicalForm (ofNum n) ∧
    canonicalForm (addAssign f g) ∧ canonicalForm (subAssign f g) ∧
    canonicalForm (mulAssign f g) ∧ canonicalForm (divAssign f g) ∧
    canonicalForm (add f g) ∧ canonicalForm (sub f g) ∧
    canonicalForm (mul f g) ∧ canonicalForm (div f g) ∧
    reduction ⟨n, 0⟩ = ⟨n, 0⟩ :=
  ⟨reduction_canonical _,
   ⟨zero_le_one, fun _ => ⟨Int.gcd_one, fun _ => rfl⟩⟩,
   reduction_canonical _, reduction_canonical _, reduction_canonical _,
   reduction_canonical _, reduction_canonical _, reduction_canonical _,
   reduction_canonical _, reduction_canonical _,
   reduction_den_zero rfl⟩

theorem C1_witness :
    canonicalForm (ofNumDen 4 (-6)) ∧ canonicalForm (ofNum 4) ∧
    canonicalForm (addAssign ⟨1, 2⟩ ⟨2, 3⟩) ∧ canonicalForm (subAssign ⟨1, 2⟩ ⟨2, 3⟩) ∧
    canonicalForm (mulAssign ⟨1, 2⟩ ⟨2, 3⟩) ∧ canonicalForm (divAssign ⟨1, 2⟩ ⟨2, 3⟩) ∧
    canonicalForm (add ⟨1, 2⟩ ⟨2, 3⟩) ∧ canonicalForm (sub ⟨1, 2⟩ ⟨2, 3⟩) ∧
    canonicalForm (mul ⟨1, 2⟩ ⟨2, 3⟩) ∧ canonicalForm (div ⟨1, 2⟩ ⟨2, 3⟩) ∧
    reduction ⟨4, 0⟩ = ⟨4, 0⟩ :=
  C1_public_ops_canonical 4 (-6) ⟨1, 2⟩ ⟨2, 3⟩ (by decide) (by decide)

/-- C2: for every pair `(num, den)` with `den ≠ 0`, the two-argument
constructor yields a coprime pair with positive denominator representing
the same exact rational number. -/
theorem C2_construct_canonical (num den : Int) (hden : den ≠ 0) :
    Int.gcd (ofNumDen num den).num (ofNumDen num den).den = 1 ∧
    0 < (ofNumDen num den).den ∧
    ((ofNumDen num den).num : ℚ) / ((ofNumDen num den).den : ℚ)
      = (num : ℚ) / (den : ℚ) := by
  by_cases hpos : 0 < den
  · have heq : ofNumDen num den = reduction ⟨num, den⟩ := by
      rw [ofNumDen, if_pos hpos]
    obtain ⟨h1, h2, h3, _⟩ := reduction_spec ⟨num, den⟩ hden
    rw [← heq] at h1 h2 h3
    refine ⟨h2, h1, ?_⟩
    rw [div_eq_div_iff (by exact_mod_cast ne_of_gt h1) (by exact_mod_cast hden)]
    exact_mod_cast h3
  · have heq : ofNumDen num den = reduction ⟨num * -1, -den⟩ := by
      rw [ofNumDen, if_neg hpos]
    have hden' : (⟨num * -1, -den⟩ : Fraction).den ≠ 0 := by
      show -den ≠ 0
      omega
    obtain ⟨h1, h2, h3, _⟩ := reduction_spec ⟨num * -1, -den⟩ hden'
    rw [← heq] at h1 h2 h3
    have h3' : (ofNumDen num den).num * -den = num * -1 * (ofNumDen num den).den := h3
    refine ⟨h2, h1, ?_⟩
    rw [div_eq_div_iff (by exact_mod_cast ne_of_gt h1) (by exact_mod_cast hden)]
    have : (ofNumDen num den).num * den = num * (ofNumDen num den).den := by
      linear_combination -h3'
    exact_mod_cast this

theorem C2_witness :
    Int.gcd (ofNumDen 5 (-10)).num (ofNumDen 5 (-10)).den = 1 ∧
    0 < (ofNumDen 5 (-10)).den ∧
    ((ofNumDen 5 (-10)).num : ℚ) / ((ofNumDen 5 (-10)).den : ℚ)
      = ((5 : Int) : ℚ) / (((-10) : Int) : ℚ) :=
  C2_construct_canonical 5 (-10) (by decide)

/-- C3 as stated is false on the code: dividing `1/3` by the NaN pair
`(0, 0)` — a fraction whose numerator is `0` — yields the NaN pair, whose
`isInf()` is `false`, even though the left numerator is non-zero. -/
theorem C3_counterexample :
    (ofNumDen 0 0).num = 0 ∧ (ofNumDen 1 3).num ≠ 0 ∧
    (div (ofNumDen 1 3) (ofNumDen 0 0)).isInf = false := by decide

/-- C3 amended: for all fractions `a` and `b` where `b`'s numerator is `0`
and `b`'s denominator is non-zero, `a / b` returns (without any error
channel) a result with denominator `0`, classified infinite exactly when
`a`'s numerator is non-zero and NaN exactly when it is zero; in particular
`Fraction(1,3) / Fraction(0,5)` satisfies `isInf() == true`. -/
theorem C3_div_by_zero_fraction (a b : Fraction)
    (hb0 : b.num = 0) (hbden : b.den ≠ 0) :
    (div a b).den = 0 ∧
    ((div a b).isInf = true ↔ a.num ≠ 0) ∧
    ((div a b).isNan = true ↔ a.num = 0) ∧
    (div (ofNumDen 1 3) (ofNumDen 0 5)).isInf = true := by
  have hdiv : div a b = ⟨a.num * b.den, 0⟩ := by
    show reduction ⟨a.num * b.den, a.den * b.num⟩ = _
    rw [hb0, mul_zero]
    exact reduction_den_zero rfl
  rw [hdiv]
  refine ⟨rfl, ?_, ?_, by decide⟩
  · show ((0 : Int) = 0 ∧ a.num * b.den ≠ 0 : Bool) = true ↔ a.num ≠ 0
    simp [mul_ne_zero_iff, hbden]
  · show ((0 : Int) = 0 ∧ a.num * b.den = 0 : Bool) = true ↔ a.num = 0
    simp [mul_eq_zero, hbden]

theorem C3_witness :
    (div ⟨1, 3⟩ ⟨0, 1⟩).den = 0 ∧
    ((div ⟨1, 3⟩ ⟨0, 1⟩).isInf = true ↔ (Fraction.mk 1 3).num ≠ 0) ∧
    ((div ⟨1, 3⟩ ⟨0, 1⟩).isNan = true ↔ (Fraction.mk 1 3).num = 0) ∧
    (div (ofNumDen 1 3) (ofNumDen 0 5)).isInf = true :=
  C3_div_by_zero_fraction ⟨1, 3⟩ ⟨0, 1⟩ rfl (by decide)

/-- C4 as stated is false on the code: `Fraction(100,150) + Fraction(2,5)`
is the canonical pair `(16, 15)`, not `(14, 15)`, so the first identity
(and likewise the second, whose true value is `131/5`, not `27/1`) fails. -/
theorem C4_counterexample :
    add (ofNumDen 100 150) (ofNumDen 2 5) = ⟨16, 15⟩ ∧
    feq (add (ofNumDen 100 150) (ofNumDen 2 5)) (ofNumDen 14 15) = false ∧
    feq (sub (ofNumDen 30 15) (ofNumDen 242 (-10))) (ofNumDen 27 1) = false := by
  decide

/-- C4 amended: the three arithmetic identities with the values the code
actually produces: `Fraction(100,150) + Fraction(2,5) == Fraction(16,15)`;
`Fraction(30,15) - Fraction(242,-10) == Fraction(131,5)`, whose text form
is `"131/5"`; and `Fraction(3,33) * Fraction(7,-21) == Fraction(-1,33)`. -/
theorem C4_arithmetic_identities :
    feq (add (ofNumDen 100 150) (ofNumDen 2 5)) (ofNumDen 16 15) = true ∧
    feq (sub (ofNumDen 30 15) (ofNumDen 242 (-10))) (ofNumDen 131 5) = true ∧
    toText (sub (ofNumDen 30 15) (ofNumDen 242 (-10))) = "131/5" ∧
    feq (mul (ofNumDen 3 33) (ofNumDen 7 (-21))) (ofNumDen (-1) 33) = true :=
  ⟨by decide, by decide, by rfl, by decide⟩

/-- C5 as stated is false on the code: `Fraction(1, 0)` stores numerator
`-1`, not `1` — the `den > 0` test fails at `0`, so the sign-normalization
branch runs and multiplies the numerator by `-1`. -/
theorem C5_counterexample :
    (ofNumDen 1 0).num = -1 ∧ ((-1 : Int) ≠ 1) := by decide

/-- C5 amended: for every numerator `n`, `Fraction(n, 0)` stores numerator
`-n` and denominator `0`: the sign-normalization branch executes (flipping
the denominator `0` is a no-op but negating the numerator is not), so the
supplied numerator's sign is flipped. -/
theorem C5_ctor_zero_den (n : Int) :
    (ofNumDen n 0).num = -n ∧ (ofNumDen n 0).den = 0 := by
  have h : ofNumDen n 0 = ⟨n * -1, 0⟩ := by
    rw [ofNumDen, if_neg (by omega), neg_zero]
    exact reduction_den_zero rfl
  rw [h]
  exact ⟨mul_neg_one n, rfl⟩

/-- C6 as stated is false on the code: `(1, 0)` is a canonical non-finite
pair (denominator `0`), yet constructing from it yields `(-1, 0)`, not the
same pair. -/
theorem C6_counterexample :
    (Fraction.mk 1 0).den = 0 ∧ ofNumDen 1 0 ≠ Fraction.mk 1 0 := by decide

/-- C6 amended: canonicalization is idempotent on every canonical pair with
positive denominator and on the NaN pair `(0, 0)`; on a non-finite pair
`(n, 0)` with `n ≠ 0` the constructor instead negates the numerator,
yielding `(-n, 0)`. -/
theorem C6_idempotent (n d : Int) :
    (0 < d → Int.gcd n d = 1 → ofNumDen n d = ⟨n, d⟩) ∧
    (d = 0 → n = 0 → ofNumDen n d = ⟨n, d⟩) ∧
    (d = 0 → ofNumDen n d = ⟨-n, d⟩) := by
  refine ⟨fun hpos hg => ?_, fun hd hn => ?_, fun hd => ?_⟩
  · rw [ofNumDen, if_pos hpos, reduction_of_pos (f := ⟨n, d⟩) hpos]
    show reduceCore n d = ⟨n, d⟩
    rw [reduceCore, reduceCore_div_eq_gcd n d hpos, hg, Nat.cast_one,
      Int.tdiv_one, Int.tdiv_one]
  · subst hd
    subst hn
    decide
  · subst hd
    rw [ofNumDen, if_neg (by omega), neg_zero, reduction_den_zero rfl,
      mul_neg_one]

theorem C6_witness :
    ofNumDen 2 3 = ⟨2, 3⟩ ∧ ofNumDen 0 0 = ⟨0, 0⟩ ∧ ofNumDen 5 0 = ⟨-5, 0⟩ :=
  ⟨(C6_idempotent 2 3).1 (by decide) (by decide),
   (C6_idempotent 0 0).2.1 rfl rfl,
   (C6_idempotent 5 0).2.2 rfl⟩

/-- C7: for all finite canonical fractions `f1`, `f2`, exactly one of
`f1 < f2`, `f1 == f2`, `f1 > f2` holds, and `f1 <= f2` equals `!(f1 > f2)`. -/
theorem C7_ordering_consistency (f1 f2 : Fraction)
    (h1 : canonicalForm f1) (h2 : canonicalForm f2)
    (hfin1 : f1.den ≠ 0) (hfin2 : f2.den ≠ 0) :
    ((flt f1 f2 = true ∧ feq f1 f2 = false ∧ fgt f1 f2 = false) ∨
     (flt f1 f2 = false ∧ feq f1 f2 = true ∧ fgt f1 f2 = false) ∨
     (flt f1 f2 = false ∧ feq f1 f2 = false ∧ fgt f1 f2 = true)) ∧
    fle f1 f2 = !(fgt f1 f2) := by
  have hd1 : 0 < f1.den := by
    have := h1.1
    omega
  have hd2 : 0 < f2.den := by
    have := h2.1
    omega
  obtain ⟨hg1, _⟩ := h1.2 hd1
  obtain ⟨hg2, _⟩ := h2.2 hd2
  have hkey : feq f1 f2 = true ↔ f1.num * f2.den = f2.num * f1.den := by
    constructor
    · intro h
      have he : f1.num = f2.num ∧ f1.den = f2.den := by simpa [feq] using h
      rw [he.1, he.2]
    · intro h
      obtain ⟨e1, e2⟩ := canonical_inj hd1 hd2 hg1 hg2 h
      simp [feq, e1, e2]
  refine ⟨?_, rfl⟩
  rcases lt_trichotomy (f1.num * f2.den) (f2.num * f1.den) with hlt | heq | hgt
  · left
    refine ⟨?_, ?_, ?_⟩
    · simp only [flt, fgt, gt_iff_lt, decide_eq_true_eq]
      exact hlt
    · rw [Bool.eq_false_iff]
      intro hc
      exact absurd (hkey.mp hc) (ne_of_lt hlt)
    · simp only [fgt, gt_iff_lt, decide_eq_false_iff_not, not_lt]
      exact le_of_lt hlt
  · right
    left
    refine ⟨?_, hkey.mpr heq, ?_⟩
    · simp only [flt, fgt, gt_iff_lt, decide_eq_false_iff_not, not_lt, heq,
        le_refl]
    · simp only [fgt, gt_iff_lt, decide_eq_false_iff_not, not_lt, heq, le_refl]
  · right
    right
    refine ⟨?_, ?_, ?_⟩
    · simp only [flt, fgt, gt_iff_lt, decide_eq_false_iff_not, not_lt]
      exact le_of_lt hgt
    · rw [Bool.eq_false_iff]
      intro hc
      exact absurd (hkey.mp hc) (ne_of_gt hgt)
    · simp only [fgt, gt_iff_lt, decide_eq_true_eq]
      exact hgt

theorem C7_witness :
    ((flt ⟨1, 3⟩ ⟨1, 2⟩ = true ∧ feq ⟨1, 3⟩ ⟨1, 2⟩ = false ∧
        fgt ⟨1, 3⟩ ⟨1, 2⟩ = false) ∨
     (flt ⟨1, 3⟩ ⟨1, 2⟩ = false ∧ feq ⟨1, 3⟩ ⟨1, 2⟩ = true ∧
        fgt ⟨1, 3⟩ ⟨1, 2⟩ = false) ∨
     (flt ⟨1, 3⟩ ⟨1, 2⟩ = false ∧ feq ⟨1, 3⟩ ⟨1, 2⟩ = false ∧
        fgt ⟨1, 3⟩ ⟨1, 2⟩ = true)) ∧
    fle ⟨1, 3⟩ ⟨1, 2⟩ = !(fgt ⟨1, 3⟩ ⟨1, 2⟩) :=
  C7_ordering_consistency ⟨1, 3⟩ ⟨1, 2⟩ (by decide) (by decide) (by decide)
    (by decide)

/-- C8: for every pair of non-finite fractions (both denominators `0`),
`f1 > f2` is `false`: the cross-multiplication degenerates to
`num1*0 > num2*0`. -/
theorem C8_nonfinite_gt_false (f1 f2 : Fraction)
    (h1 : f1.den = 0) (h2 : f2.den = 0) : fgt f1 f2 = false := by
  simp [fgt, h1, h2]

theorem C8_witness : fgt ⟨1, 0⟩ ⟨0, 0⟩ = false :=
  C8_nonfinite_gt_false ⟨1, 0⟩ ⟨0, 0⟩ rfl rfl

/-- C9: every `PGCD(a, b)` call reachable from a public operation
terminates: `reduction()` guards `den != 0` and fixes its sign, so the
second argument is positive and the first non-negative, and then the
Euclidean loop reaches remainder `0` within `b.natAbs` modulo steps,
never taking a zero divisor (which the model would report as `none`). -/
theorem C9_PGCD_terminates (a b : Int) (ha : 0 ≤ a) (hb : 0 < b) :
    PGCDloop b.natAbs a b = some (PGCD a b) := by
  rw [PGCDloop_eq_gcd b.natAbs a b ha hb (le_refl _), PGCD_eq_gcd ha hb]

theorem C9_witness : PGCDloop (Int.natAbs 8) 12 8 = some (PGCD 12 8) :=
  C9_PGCD_terminates 12 8 (by decide) (by decide)

/-- C10: NaN — the pair `(0, 0)` — is absorbing for all four arithmetic
operations: if either operand is NaN, the result of each operation, in
self-mutating and binary form alike, is the NaN pair `(0, 0)`. -/
theorem C10_nan_absorbing (x y : Fraction)
    (h : x.isNan = true ∨ y.isNan = true) :
    addAssign x y = ⟨0, 0⟩ ∧ subAssign x y = ⟨0, 0⟩ ∧
    mulAssign x y = ⟨0, 0⟩ ∧ divAssign x y = ⟨0, 0⟩ ∧
    add x y = ⟨0, 0⟩ ∧ sub x y = ⟨0, 0⟩ ∧
    mul x y = ⟨0, 0⟩ ∧ div x y = ⟨0, 0⟩ ∧
    (⟨0, 0⟩ : Fraction).isNan = true := by
  have hcase : (x.num = 0 ∧ x.den = 0) ∨ (y.num = 0 ∧ y.den = 0) := by
    rcases h with h | h
    · left
      simpa [Fraction.isNan, and_comm] using h
    · right
      simpa [Fraction.isNan, and_comm] using h
  have hred : reduction ⟨(0 : Int), (0 : Int)⟩ = ⟨0, 0⟩ := reduction_den_zero rfl
  rcases hcase with ⟨hn, hd⟩ | ⟨hn, hd⟩ <;>
    exact ⟨by simp [addAssign, hn, hd, hred], by simp [subAssign, hn, hd, hred],
      by simp [mulAssign, hn, hd, hred], by simp [divAssign, hn, hd, hred],
      by simp [add, addAssign, hn, hd, hred], by simp [sub, subAssign, hn, hd, hred],
      by simp [mul, mulAssign, hn, hd, hred], by simp [div, divAssign, hn, hd, hred],
      rfl⟩

theorem C10_witness :
    addAssign ⟨1, 2⟩ ⟨0, 0⟩ = ⟨0, 0⟩ ∧ subAssign ⟨1, 2⟩ ⟨0, 0⟩ = ⟨0, 0⟩ ∧
    mulAssign ⟨1, 2⟩ ⟨0, 0⟩ = ⟨0, 0⟩ ∧ divAssign ⟨1, 2⟩ ⟨0, 0⟩ = ⟨0, 0⟩ ∧
    add ⟨1, 2⟩ ⟨0, 0⟩ = ⟨0, 0⟩ ∧ sub ⟨1, 2⟩ ⟨0, 0⟩ = ⟨0, 0⟩ ∧
    mul ⟨1, 2⟩ ⟨0, 0⟩ = ⟨0, 0⟩ ∧ div ⟨1, 2⟩ ⟨0, 0⟩ = ⟨0, 0⟩ ∧
    (⟨0, 0⟩ : Fraction).isNan = true :=
  C10_nan_absorbing ⟨1, 2⟩ ⟨0, 0⟩ (Or.inr (by decide))

end dd
